import Mathlib

/-!
Shallow embedding of `src/cnnscore.py` (CNNScore), a command-line driver that
orchestrates k-fold cross-validation training of a CNN classifier via an
external trainer.  File I/O, plotting, the metrics library and the external
trainer are abstracted: pure functions below model the data flow of the
Python code (loops, list/dict bookkeeping, string formatting and naming).
Machine floats never enter any verified property; score values are carried
as an opaque type parameter.
-/

namespace CNNScore

/-- Modifies the element at index `j` of a list in place (Python
`lst[j] = ...` / in-place mutation of `lst[j]`); out-of-range indices leave
the list unchanged (the Python code only indexes in range). -/
def modifyAt (l : List α) (j : Nat) (f : α → α) : List α :=
  match l, j with
  | [], _ => []
  | x :: xs, 0 => f x :: xs
  | x :: xs, j+1 => x :: modifyAt xs j f

/-- Model of `os.path.join(dir, name)` for a relative `name`. -/
def os_path_join (dir name : String) : String :=
  if dir = "" then name
  else if dir.endsWith "/" then dir ++ name
  else dir ++ "/" ++ name

/-- Model of Python `range(start, stop, step)` for a positive `step`. -/
def pyRange (start stop step : Nat) : List Nat :=
  (List.range ((stop - start + step - 1) / step)).map (fun t => start + t * step)

/-- The score-record dictionary produced by `read_data_to_field_dict` /
`get_model_predictions`: parallel lists keyed `labels`, `targets`,
`examples`, `scores`.  Score values are a type parameter (they are floats
in the source; no property here depends on their arithmetic). -/
structure ScoredData (α : Type) where
  labels : List Int
  targets : List String
  examples : List String
  scores : List α
deriving DecidableEq, Repr

/-- Abstraction of the trained caffe network in `get_model_predictions`:
`label i j` models `int(output['label'][j])` of the `i`-th call to
`model.forward()`, and `pred i j` models `output['pred'][j][1]`. -/
structure ModelOutput (α : Type) where
  label : Nat → Nat → Int
  pred : Nat → Nat → α

/-- The message of the one `raise` statement in `src/cnnscore.py`. -/
def mismatchMsg : String := "file data does not match model data"

/-- Inner loop of `get_model_predictions` (`for j in range(batch_size)`),
with `rem` slots of the batch left and `j` the current slot; `break` once
`data_index` runs past the data, raise on a label mismatch, otherwise
append the prediction score. -/
def innerLoop (labels : List Int) (out : ModelOutput α) (b i : Nat) :
    Nat → Nat → List α → Except String (List α)
  | 0, _, acc => .ok acc
  | rem+1, j, acc =>
    let di := i * b + j
    if labels.length ≤ di then .ok acc
    else if labels.getD di 0 ≠ out.label i j then .error mismatchMsg
    else innerLoop labels out b i rem (j+1) (acc ++ [out.pred i j])

/-- Outer loop of `get_model_predictions` (`for i in range(num_batches)`),
with `rem` batches left and `i` the current batch index. -/
def outerLoop (labels : List Int) (out : ModelOutput α) (b : Nat) :
    Nat → Nat → List α → Except String (List α)
  | 0, _, acc => .ok acc
  | rem+1, i, acc =>
    match innerLoop labels out b i b 0 acc with
    | .error e => .error e
    | .ok acc2 => outerLoop labels out b rem (i+1) acc2

/-- Model of `get_model_predictions(model_file, weight_file, data_file)`.
The parsed rows of the data file are `rows` (each `(label, target,
example)` as parsed with types `[int, str, str]`), the loaded network is
`out`, and `batch_size` is `model.blobs['data'].shape[0]`.  Returns the
`data` dictionary with the `scores` field filled in, or the raised
`IndexError` message on a label mismatch. -/
def get_model_predictions (rows : List (Int × String × String))
    (out : ModelOutput α) (batch_size : Nat) : Except String (ScoredData α) :=
  let labels := rows.map (fun r => r.1)
  let targets := rows.map (fun r => r.2.1)
  let examples := rows.map (fun r => r.2.2)
  let num_examples := labels.length
  let num_batches := num_examples / batch_size + 1
  match outerLoop labels out batch_size num_batches 0 [] with
  | .error e => .error e
  | .ok scores => .ok ⟨labels, targets, examples, scores⟩

/-- Body of the loop in `write_scores_to_file`: iterate over
`enumerate(results['examples'])`, index the `targets`, `labels` and
`scores` lists at the running index, and append one whitespace-joined line
per example to the buffer.  An out-of-range index (Python `IndexError`) is
`none`. -/
def writeScoresGo [ToString α] (labels : List Int) (targets : List String) (scores : List α) :
    List String → Nat → String → Option String
  | [], _, buf => some buf
  | ex :: rest, i, buf =>
    match targets.get? i, labels.get? i, scores.get? i with
    | some target, some label, some score =>
      writeScoresGo labels targets scores rest (i+1)
        (buf ++ String.intercalate " " [toString label, target, ex, toString score] ++ "\n")
    | _, _, _ => none

/-- The buffer written by `write_scores_to_file(score_file, results)`. -/
def write_scores_to_file_buf [ToString α] (results : ScoredData α) : Option String :=
  writeScoresGo results.labels results.targets results.scores results.examples 0 ""

/-- Loop of `k_fold_partitions`: `for i, target in enumerate(targets):
parts[i%k].append(target)`. -/
def fillParts (k : Nat) : Nat → List String → List (List String) → List (List String)
  | _, [], parts => parts
  | i, t :: ts, parts => fillParts k (i+1) ts (modifyAt parts (i % k) (fun part => part ++ [t]))

/-- Model of `k_fold_partitions(data, k)`.  `targets` is `list(data.keys())`
after `np.random.shuffle`; the shuffle is modelled by quantifying theorems
over every ordering of the (distinct) dictionary keys. -/
def k_fold_partitions (targets : List String) (k : Nat) : List (List String) :=
  fillParts k 0 targets (List.replicate k [])

/-- Specification helper: the sublist of `ts` at positions `p` (counted
from `i`) with `p % k = r`.  Used to characterise `k_fold_partitions`. -/
def selIdx (k r : Nat) : Nat → List String → List String
  | _, [] => []
  | i, t :: ts => if i % k = r then t :: selIdx k r (i+1) ts else selIdx k r (i+1) ts

/-- The train-target set of a fold in `write_k_fold_data`:
`[t for t in full_data if t not in part]`. -/
def train_targets (full_targets part : List String) : List String :=
  full_targets.filter (fun t => !(part.contains t))

/-- One step of `group_by_index` (grouping on the target field): append the
value to the entry of `key`, or create a new group at the end. -/
def insertGroup (d : List (String × List (Int × String))) (key : String) (v : Int × String) :
    List (String × List (Int × String)) :=
  match d with
  | [] => [(key, [v])]
  | (g, vs) :: rest => if g = key then (g, vs ++ [v]) :: rest else (g, vs) :: insertGroup rest key v

/-- Model of `read_data_to_target_dict(data_file, [int, str, str], 1)`:
group the parsed `(label, target, example)` rows into a dictionary keyed by
target, each entry keeping the remaining `(label, example)` fields. -/
def group_by_target (rows : List (Int × String × String)) : List (String × List (Int × String)) :=
  rows.foldl (fun d r => insertGroup d r.2.1 (r.1, r.2.2)) []

/-- Dictionary lookup `data[target]` on the grouped data. -/
def lookupGroup (d : List (String × List (Int × String))) (key : String) : List (Int × String) :=
  match d.find? (fun g => g.1 = key) with
  | some g => g.2
  | none => []

/-- The rows written by `write_target_data_to_file(data_file, data,
targets)`: for each target in `targets`, one row `(label, target, example)`
per example of `data[target]`.  Each row is rendered in the file as
`str(label) + ' ' + target + ' ' + example`; `np.random.shuffle` then
permutes whole rows, which leaves row membership (in particular every label
value) unchanged. -/
def write_target_lines (data : List (String × List (Int × String))) (targets : List String) :
    List (Int × String × String) :=
  targets.foldl (fun lines t => lines ++ (lookupGroup data t).map (fun le => (le.1, t, le.2))) []


/-- The `part_param` string of fold `i` in `generate_crossval_files`:
`'full'` for the full-data fold `i = 0`, else `'part' + str(i)`. -/
def part_param (i : Nat) : String :=
  if i = 0 then "full" else "part" ++ toString i

/-- The snapshot iterations of `generate_crossval_files`:
`range(snap_iter, max_iter+1, snap_iter)` where `snap_iter` is the solver's
`snapshot` field, defaulted to `max_iter` when that field is zero/unset
(`if not snap_iter: snap_iter = max_iter`). -/
def snap_iters (max_iter snapshot : Nat) : List Nat :=
  let snap_iter := if snapshot = 0 then max_iter else snapshot
  pyRange snap_iter (max_iter + 1) snap_iter

/-- The `crossval_files` dictionary built by `generate_crossval_files`. -/
structure CrossvalFiles where
  train_data : List String
  test_data : List String
  train_models : List String
  test_models : List String
  solvers : List String
  weights : List (List String)
  scores : List (List String)
  roc_by_iter : List String
  roc_testontrain : String
  roc_crossval : String
  line_plot : String
deriving DecidableEq, Repr

/-- Model of `generate_crossval_files` (its pure naming bookkeeping; the
optional prototxt writing is modelled separately).  `data_dir`,
`data_param`/`data_ext`, `model_param` and `solver_param` stand for the
values the source derives from its file arguments with `os.path.dirname`,
`os.path.splitext(os.path.basename(...))` and
`os.path.basename(...).split('.')[0]`, which are library calls.  Each
appending loop `for i in range(k+1)` / `for j in range(snap_iter,
max_iter+1, snap_iter)` is rendered as a map over the same range. -/
def generate_crossval_files (output_dir full_data_file data_dir data_param data_ext
    model_param solver_param : String) (max_iter snapshot k : Nat) : CrossvalFiles :=
  let snaps := snap_iters max_iter snapshot
  { train_data := (List.range (k+1)).map (fun i =>
      if i = 0 then full_data_file
      else os_path_join data_dir (String.intercalate "_" [data_param, part_param i, "train"] ++ data_ext))
    test_data := (List.range (k+1)).map (fun i =>
      if i = 0 then full_data_file
      else os_path_join data_dir (String.intercalate "_" [data_param, part_param i, "test"] ++ data_ext))
    train_models := (List.range (k+1)).map (fun i =>
      os_path_join output_dir (String.intercalate "_" [model_param, part_param i, "train"] ++ ".model.prototxt"))
    test_models := (List.range (k+1)).map (fun i =>
      os_path_join output_dir (String.intercalate "_" [model_param, part_param i, "test"] ++ ".model.prototxt"))
    solvers := (List.range (k+1)).map (fun i =>
      os_path_join output_dir (String.intercalate "_" [solver_param, part_param i] ++ ".solver.prototxt"))
    weights := (List.range (k+1)).map (fun i =>
      snaps.map (fun j =>
        os_path_join output_dir (String.intercalate "_" [model_param, part_param i, "iter_" ++ toString j] ++ ".caffemodel")))
    scores := (List.range (k+1)).map (fun i =>
      snaps.map (fun j =>
        os_path_join output_dir (String.intercalate "_" [model_param, part_param i, "iter_" ++ toString j] ++ ".scores")))
    roc_by_iter := snaps.map (fun j =>
      os_path_join output_dir (String.intercalate "_" [model_param, "iter_" ++ toString j] ++ ".roc.png"))
    roc_testontrain := os_path_join output_dir (String.intercalate "_" [model_param, "testontrain"] ++ ".roc.png")
    roc_crossval := os_path_join output_dir (String.intercalate "_" [model_param, "crossval"] ++ ".roc.png")
    line_plot := os_path_join output_dir (String.intercalate "_" [model_param] ++ ".line.png") }

/-- Field-wise list concatenation, modelling the four
`all_score_data[1][j][...] += score_data[...]` statements. -/
def appendData (a b : ScoredData α) : ScoredData α :=
  ⟨a.labels ++ b.labels, a.targets ++ b.targets, a.examples ++ b.examples, a.scores ++ b.scores⟩

/-- One fold iteration `i` of the score-aggregation loop of
`crossval_model` (identically of `draw_crossval_plots`): for each snapshot
index `j` of the fold's `m` weight files, fold 0 appends its score data to
the test-on-train series, fold 1 starts the cross-validation series, and
every later fold concatenates its score data field-wise onto entry `j` of
the cross-validation series. -/
def aggStep (sd : Nat → Nat → ScoredData α) (m : Nat)
    (st : List (ScoredData α) × List (ScoredData α)) (i : Nat) :
    List (ScoredData α) × List (ScoredData α) :=
  (List.range m).foldl (fun st2 j =>
    let score_data := sd i j
    if i = 0 then (st2.1 ++ [score_data], st2.2)
    else if i = 1 then (st2.1, st2.2 ++ [score_data])
    else (st2.1, modifyAt st2.2 j (fun x => appendData x score_data))) st

/-- The score-aggregation loops of `crossval_model` (and identically of
`draw_crossval_plots`): `sd i j` is the score data of fold `i` at snapshot
index `j` (from `get_model_predictions` resp. the score-file read), `k+1`
folds are processed with `m` snapshots each, and the result is the pair
`(all_score_data[0], all_score_data[1])` (test-on-train, crossval). -/
def aggregate_scores (sd : Nat → Nat → ScoredData α) (k m : Nat) :
    List (ScoredData α) × List (ScoredData α) :=
  (List.range (k+1)).foldl (aggStep sd m) ([], [])

/-- Specification helper for the aggregated cross-validation entry at
snapshot `j`: the field-wise concatenation of folds `1` through `k`. -/
def cvExpected (sd : Nat → Nat → ScoredData α) (k j : Nat) : ScoredData α :=
  ⟨((List.range' 1 k).map (fun i => (sd i j).labels)).flatten,
   ((List.range' 1 k).map (fun i => (sd i j).targets)).flatten,
   ((List.range' 1 k).map (fun i => (sd i j).examples)).flatten,
   ((List.range' 1 k).map (fun i => (sd i j).scores)).flatten⟩

/-- The trainer invocations of `crossval_model`, in program order:
`for i in range(k+1): os.system('caffe train -solver ' +
crossval_files['solvers'][i] + ' -gpu ' + gpus)`. -/
def crossval_train_commands (solvers : List String) (gpus : String) (k : Nat) : List String :=
  (List.range (k+1)).map (fun i => "caffe train -solver " ++ solvers.getD i "" ++ " -gpu " ++ gpus)

/-- A subcommand of the CLI: its name and the metavar names of its
positional arguments, in order. -/
structure SubCommand where
  name : String
  positionals : List String
deriving DecidableEq, Repr

/-- The argument-parser configuration built by `parse_args`: the shared
optional flags (each taking one value), the subcommands, and whether a
subcommand is required. -/
structure ParserSpec where
  options : List String
  subs : List SubCommand
  required : Bool
deriving DecidableEq, Repr

/-- The parsed namespace: selected task, flag values, positional values. -/
structure ParsedArgs where
  task : String
  opts : List (String × String)
  positionals : List (String × String)
deriving DecidableEq, Repr

/-- Token scan of the argv: a token equal to a declared option consumes the
next token as its value, every other token is a positional. -/
def collectTokens (options : List String) :
    List String → List (String × String) → List String →
    Except String (List (String × String) × List String)
  | [], opts, pos => .ok (opts, pos)
  | tok :: rest, opts, pos =>
    if options.contains tok then
      match rest with
      | [] => .error ("argument " ++ tok ++ ": expected one argument")
      | v :: rest2 => collectTokens options rest2 (opts ++ [(tok, v)]) pos
    else collectTokens options rest opts (pos ++ [tok])

/-- Simplified model of `argparse` running the configuration of
`parse_args`: flags may appear anywhere (the subparsers inherit the global
flags via `parents=[p_global]`), the first positional token selects the
subcommand (required), and the remaining positionals must match the
subcommand's declared positional arguments exactly. -/
def runParser (spec : ParserSpec) (argv : List String) : Except String ParsedArgs :=
  match collectTokens spec.options argv [] [] with
  | .error e => .error e
  | .ok (opts, pos) =>
    match pos with
    | [] =>
      if spec.required then .error "the following arguments are required: task"
      else .ok ⟨"", opts, []⟩
    | cmd :: restPos =>
      match spec.subs.find? (fun sub => sub.name = cmd) with
      | none => .error ("invalid choice: " ++ cmd)
      | some sub =>
        if restPos.length = sub.positionals.length then
          .ok ⟨sub.name, opts, sub.positionals.zip restPos⟩
        else .error "unrecognized or missing arguments"

/-- The three shared optional flags added to `p_global`. -/
def p_global_options : List String := ["-g", "-o", "-b"]

/-- The `crossval` subparser and its positional arguments. -/
def p_crossval : SubCommand := ⟨"crossval", ["data_file", "model_file", "solver_file"]⟩

/-- The `test` subparser and its positional arguments. -/
def p_test : SubCommand := ⟨"test", ["data_file", "model_file", "weight_file"]⟩

/-- The top-level parser built by `parse_args`: the global options, the two
subparsers (in registration order), and `subparsers.required = True`. -/
def p_task : ParserSpec := ⟨p_global_options, [p_crossval, p_test], true⟩

/-- The `ndim_data_param` sub-message of the data layer (the fields the
source touches). -/
structure NDimDataParam where
  source : String
  root_folder : String
  shuffle : Bool
  balanced : Bool
deriving DecidableEq, Repr

/-- A layer of the caffe `NetParameter` message: its name and data
parameters (other layer contents are irrelevant to the source's edits). -/
structure Layer where
  name : String
  ndim_data_param : NDimDataParam
deriving DecidableEq, Repr

/-- The caffe `NetParameter` protobuf message (the parts the source
touches): its repeated `layer` field. -/
structure NetParameter where
  layer : List Layer
deriving DecidableEq, Repr

/-- The caffe `SolverParameter` protobuf message (the fields the source
touches). -/
structure SolverParameter where
  train_net : String
  snapshot_prefix : String
  max_iter : Nat
  snapshot : Nat
deriving DecidableEq, Repr

/-- The deletion loop `for i, layer in enumerate(model.layer): if
layer.name == nm: del model.layer[i]` with Python's live-iteration
semantics: the index advances every iteration even after a deletion, and
iteration stops once the index reaches the current length. -/
def delLoop (nm : String) (i : Nat) (layers : List Layer) : List Layer :=
  if h : i < layers.length then
    if (layers.get ⟨i, h⟩).name = nm then delLoop nm (i+1) (layers.eraseIdx i)
    else delLoop nm (i+1) layers
  else layers
termination_by layers.length - i
decreasing_by
  · have := List.length_eraseIdx_of_lt h
    omega
  · omega

/-- Model of `write_model_prototxt(model_file, model_prototype, data_file,
binmap_root, mode)`.  A fresh message is copied from the prototype
(`model.CopyFrom(model_prototype)`), its first layer's data source and root
folder are set, mode-specific edits are applied to the copy, and the copy
is written out.  Returns `(written model, the caller's model_prototype
after the call)`. -/
def write_model_prototxt (model_prototype : NetParameter)
    (data_file binmap_root mode : String) : NetParameter × NetParameter :=
  let model := model_prototype
  let model : NetParameter := ⟨modifyAt model.layer 0 (fun dl =>
    { dl with ndim_data_param :=
      { dl.ndim_data_param with source := data_file, root_folder := binmap_root } })⟩
  let model : NetParameter :=
    if mode = "train" then ⟨delLoop "pred" 0 model.layer⟩
    else if mode = "test" then
      let model2 : NetParameter := ⟨modifyAt model.layer 0 (fun dl =>
        { dl with ndim_data_param :=
          { dl.ndim_data_param with shuffle := false, balanced := false } })⟩
      ⟨delLoop "loss" 0 model2.layer⟩
    else model
  (model, model_prototype)

/-- Model of `write_solver_prototxt(solver_file, solver_prototype,
model_file)`: copy the prototype, set `train_net` and `snapshot_prefix` on
the copy, write the copy.  Returns `(written solver, the caller's
solver_prototype after the call)`. -/
def write_solver_prototxt (solver_prototype : SolverParameter)
    (model_file : String) : SolverParameter × SolverParameter :=
  let solver := solver_prototype
  let weight_pre := model_file.replace "_train.model.prototxt" ""
  let solver := { solver with train_net := model_file, snapshot_prefix := weight_pre }
  (solver, solver_prototype)

/-- The prototxt-writing iteration of `generate_crossval_files` with
`write=True`: for each fold the train model, test model and solver files
are written from the prototype messages, which persist across iterations
exactly as the Python objects do (each call returns the possibly-updated
prototype, which is threaded into the next call). -/
def crossvalWriteLoop (model_prototype : NetParameter) (solver_prototype : SolverParameter)
    (train_data test_data train_models : Nat → String) (binmap_root : String) (k : Nat) :
    List (NetParameter × NetParameter × SolverParameter) × NetParameter × SolverParameter :=
  (List.range (k+1)).foldl (fun st i =>
    let r1 := write_model_prototxt st.2.1 (train_data i) binmap_root "train"
    let r2 := write_model_prototxt r1.2 (test_data i) binmap_root "test"
    let r3 := write_solver_prototxt st.2.2 (train_models i)
    (st.1 ++ [(r1.1, r2.1, r3.1)], r2.2, r3.2)) ([], model_prototype, solver_prototype)

@[simp] theorem modifyAt_nil (j : Nat) (f : α → α) : modifyAt ([] : List α) j f = [] := rfl

@[simp] theorem modifyAt_cons_zero (x : α) (xs : List α) (f : α → α) :
    modifyAt (x :: xs) 0 f = f x :: xs := rfl

@[simp] theorem modifyAt_cons_succ (x : α) (xs : List α) (j : Nat) (f : α → α) :
    modifyAt (x :: xs) (j+1) f = x :: modifyAt xs j f := rfl

@[simp] theorem length_modifyAt (l : List α) (j : Nat) (f : α → α) :
    (modifyAt l j f).length = l.length := by
  induction l generalizing j with
  | nil => rfl
  | cons x xs ih => cases j with
    | zero => rfl
    | succ j => simp [modifyAt, ih]

theorem get?_modifyAt (l : List α) (j : Nat) (f : α → α) (r : Nat) :
    (modifyAt l j f).get? r = if r = j then (l.get? j).map f else l.get? r := by
  induction l generalizing j r with
  | nil => simp [modifyAt]
  | cons x xs ih =>
    cases j with
    | zero =>
      cases r with
      | zero => simp
      | succ r => simp
    | succ j =>
      cases r with
      | zero => simp
      | succ r => simpa using ih j r

theorem innerLoop_ok_length (labels : List Int) (out : ModelOutput α) (b i : Nat) :
    ∀ (rem j : Nat) (acc res : List α),
      innerLoop labels out b i rem j acc = .ok res →
      res.length = acc.length + min rem (labels.length - (i * b + j)) := by
  intro rem
  induction rem with
  | zero =>
    intro j acc res h
    simp [innerLoop] at h
    simp [h.symm]
  | succ rem ih =>
    intro j acc res h
    rw [innerLoop] at h
    by_cases hle : labels.length ≤ i * b + j
    · rw [if_pos hle] at h
      cases h
      have : labels.length - (i * b + j) = 0 := Nat.sub_eq_zero_of_le hle
      simp [this]
    · rw [if_neg hle] at h
      by_cases hmm : labels.getD (i * b + j) 0 ≠ out.label i j
      · rw [if_pos hmm] at h
        exact absurd h (by simp)
      · rw [if_neg hmm] at h
        have hres := ih (j+1) (acc ++ [out.pred i j]) res h
        have h1 : i * b + j < labels.length := Nat.lt_of_not_le hle
        have h2 : i * b + (j + 1) = i * b + j + 1 := by omega
        rw [h2] at hres
        simp only [List.length_append, List.length_cons, List.length_nil] at hres
        omega

theorem innerLoop_error_iff (labels : List Int) (out : ModelOutput α) (b i : Nat) :
    ∀ (rem j : Nat) (acc : List α),
      (∃ e, innerLoop labels out b i rem j acc = .error e) ↔
      ∃ t, t < rem ∧ i * b + (j + t) < labels.length ∧
        labels.getD (i * b + (j + t)) 0 ≠ out.label i (j + t) := by
  intro rem
  induction rem with
  | zero =>
    intro j acc
    simp [innerLoop]
  | succ rem ih =>
    intro j acc
    rw [innerLoop]
    by_cases hle : labels.length ≤ i * b + j
    · rw [if_pos hle]
      constructor
      · rintro ⟨e, h⟩
        exact absurd h (by simp)
      · rintro ⟨t, _, hlt, _⟩
        omega
    · rw [if_neg hle]
      by_cases hmm : labels.getD (i * b + j) 0 ≠ out.label i j
      · rw [if_pos hmm]
        constructor
        · intro _
          exact ⟨0, by omega, by simpa using Nat.lt_of_not_le hle, by simpa using hmm⟩
        · intro _
          exact ⟨mismatchMsg, rfl⟩
      · rw [if_neg hmm]
        rw [ih (j+1) (acc ++ [out.pred i j])]
        constructor
        · rintro ⟨t, ht, hlt, hne⟩
          refine ⟨t + 1, by omega, ?_, ?_⟩
          · have : j + 1 + t = j + (t + 1) := by omega
            rw [this] at hlt
            exact hlt
          · have : j + 1 + t = j + (t + 1) := by omega
            rw [this] at hne
            exact hne
        · rintro ⟨t, ht, hlt, hne⟩
          cases t with
          | zero =>
            exact absurd (by simpa using hne) (by simpa using hmm)
          | succ t =>
            refine ⟨t, by omega, ?_, ?_⟩
            · have : j + 1 + t = j + (t + 1) := by omega
              rw [this]
              exact hlt
            · have : j + 1 + t = j + (t + 1) := by omega
              rw [this]
              exact hne

theorem outerLoop_ok_length (labels : List Int) (out : ModelOutput α) (b : Nat) :
    ∀ (rem i : Nat) (acc res : List α),
      outerLoop labels out b rem i acc = .ok res →
      res.length = acc.length +
        (min ((i + rem) * b) labels.length - min (i * b) labels.length) := by
  intro rem
  induction rem with
  | zero =>
    intro i acc res h
    simp [outerLoop] at h
    simp [h.symm]
  | succ rem ih =>
    intro i acc res h
    rw [outerLoop] at h
    cases hI : innerLoop labels out b i b 0 acc with
    | error e => rw [hI] at h; exact absurd h (by simp)
    | ok acc2 =>
      rw [hI] at h
      have hlen := innerLoop_ok_length labels out b i b 0 acc acc2 hI
      have hrec := ih (i+1) acc2 res h
      have e1 : (i + 1) * b = i * b + b := by ring
      have e2 : (i + 1 + rem) * b = i * b + b + rem * b := by ring
      have e3 : (i + (rem + 1)) * b = i * b + b + rem * b := by ring
      rw [e1, e2] at hrec
      rw [e3]
      omega

theorem outerLoop_error_iff (labels : List Int) (out : ModelOutput α) (b : Nat) :
    ∀ (rem i : Nat) (acc : List α),
      (∃ e, outerLoop labels out b rem i acc = .error e) ↔
      ∃ u, u < rem ∧ ∃ j, j < b ∧ (i + u) * b + j < labels.length ∧
        labels.getD ((i + u) * b + j) 0 ≠ out.label (i + u) j := by
  intro rem
  induction rem with
  | zero =>
    intro i acc
    simp [outerLoop]
  | succ rem ih =>
    intro i acc
    rw [outerLoop]
    cases hI : innerLoop labels out b i b 0 acc with
    | error e =>
      constructor
      · intro _
        have := (innerLoop_error_iff labels out b i b 0 acc).mp ⟨e, hI⟩
        obtain ⟨t, ht, hlt, hne⟩ := this
        exact ⟨0, by omega, t, ht, by simpa using hlt, by simpa using hne⟩
      · intro _
        exact ⟨e, rfl⟩
    | ok acc2 =>
      rw [ih (i+1) acc2]
      constructor
      · rintro ⟨u, hu, j, hj, hlt, hne⟩
        refine ⟨u + 1, by omega, j, hj, ?_, ?_⟩
        · have : i + 1 + u = i + (u + 1) := by omega
          rw [this] at hlt
          exact hlt
        · have : i + 1 + u = i + (u + 1) := by omega
          rw [this] at hne
          exact hne
      · rintro ⟨u, hu, j, hj, hlt, hne⟩
        cases u with
        | zero =>
          exfalso
          have hmem : ∃ t, t < b ∧ i * b + (0 + t) < labels.length ∧
              labels.getD (i * b + (0 + t)) 0 ≠ out.label i (0 + t) := by
            exact ⟨j, hj, by simpa using hlt, by simpa using hne⟩
          obtain ⟨e, he⟩ := (innerLoop_error_iff labels out b i b 0 acc).mpr hmem
          rw [hI] at he
          exact absurd he (by simp)
        | succ u =>
          refine ⟨u, by omega, j, hj, ?_, ?_⟩
          · have : i + 1 + u = i + (u + 1) := by omega
            rw [this]
            exact hlt
          · have : i + 1 + u = i + (u + 1) := by omega
            rw [this]
            exact hne

/-- C1: `get_model_predictions` raises an exception if and only if, for
some batch index `i` and slot `j` with data index `i*batch_size + j` within
range of the data file's rows, the label parsed from the data file at that
index differs from the trainer output label at that position.  (This is the
program's single `raise`; the source contains no other `raise` statement
and no `try`/`except`.) -/
theorem get_model_predictions_error_iff (rows : List (Int × String × String))
    (out : ModelOutput α) (b : Nat) (hb : 1 ≤ b) :
    (∃ e, get_model_predictions rows out b = .error e) ↔
    ∃ i j, j < b ∧ i * b + j < rows.length ∧
      (rows.map (fun r => r.1)).getD (i * b + j) 0 ≠ out.label i j := by
  have hkey := outerLoop_error_iff (rows.map (fun r => r.1)) out b
    (rows.length / b + 1) 0 ([] : List α)
  simp only [List.length_map, Nat.zero_add, zero_add] at hkey
  rw [get_model_predictions]
  simp only [List.length_map]
  cases hO : outerLoop (rows.map (fun r => r.1)) out b (rows.length / b + 1) 0 [] with
  | error e =>
    simp only [hO]
    constructor
    · intro _
      obtain ⟨u, _, j, hj, h1, h2⟩ := hkey.mp ⟨e, hO⟩
      exact ⟨u, j, hj, h1, h2⟩
    · intro _
      exact ⟨e, rfl⟩
  | ok scores =>
    simp only [hO]
    constructor
    · rintro ⟨e, he⟩
      exact absurd he (by simp)
    · rintro ⟨i, j, hj, hlt, hne⟩
      exfalso
      have hib : i * b ≤ rows.length := by omega
      have hi : i < rows.length / b + 1 := by
        have := (Nat.le_div_iff_mul_le (show 0 < b by omega)).mpr hib
        omega
      obtain ⟨e, he⟩ := hkey.mpr ⟨i, hi, j, hj, hlt, hne⟩
      rw [hO] at he
      exact absurd he (by simp)

/-- Witness for C1: a one-row data file whose label 0 disagrees with the
trainer output label 1 makes `get_model_predictions` raise. -/
theorem get_model_predictions_error_iff_witness :
    ∃ e, get_model_predictions [((0:Int), "t", "e")]
      (⟨fun _ _ => 1, fun _ _ => (7:Int)⟩ : ModelOutput Int) 1 = .error e :=
  (get_model_predictions_error_iff [((0:Int), "t", "e")]
      (⟨fun _ _ => 1, fun _ _ => (7:Int)⟩ : ModelOutput Int) 1 (by decide)).mpr
    ⟨0, 0, by decide, by decide, by decide⟩

/-- C9: whenever `get_model_predictions` returns without raising, the
returned dictionary's `scores` list has exactly one entry per line of the
input data file, `len(data['scores']) == len(data['examples'])`, even
though `num_batches = num_examples//batch_size + 1` runs a final partial or
empty extra batch. -/
theorem get_model_predictions_ok_length (rows : List (Int × String × String))
    (out : ModelOutput α) (b : Nat) (d : ScoredData α) (hb : 1 ≤ b)
    (hok : get_model_predictions rows out b = .ok d) :
    d.scores.length = d.examples.length := by
  rw [get_model_predictions] at hok
  simp only [List.length_map] at hok
  cases hO : outerLoop (rows.map (fun r => r.1)) out b (rows.length / b + 1) 0 [] with
  | error e =>
    rw [hO] at hok
    exact absurd hok (by simp)
  | ok scores =>
    rw [hO] at hok
    have hlen := outerLoop_ok_length (rows.map (fun r => r.1)) out b
      (rows.length / b + 1) 0 ([] : List α) scores hO
    simp only [List.length_map, List.length_nil, Nat.zero_add, zero_add, Nat.zero_mul,
      zero_mul] at hlen
    injection hok with hok
    subst hok
    have hdm := Nat.div_add_mod rows.length b
    have hmod : rows.length % b < b := Nat.mod_lt _ (show 0 < b by omega)
    have he : (rows.length / b + 1) * b = b * (rows.length / b) + b := by ring
    rw [he] at hlen
    simp only [ScoredData.scores, ScoredData.examples, List.length_map]
    omega

/-- Witness for C9: on a three-row data file with batch size 2 (so the
second batch is only half used), the matching trainer output yields exactly
three scores. -/
theorem get_model_predictions_ok_length_witness :
    1 ≤ 2 ∧ get_model_predictions
        [((0:Int), "t", "e1"), ((1:Int), "t", "e2"), ((0:Int), "u", "e3")]
        (⟨fun i j => if 2 * i + j = 1 then 1 else 0, fun i j => ((2 * i + j : Nat) : Int)⟩ :
          ModelOutput Int) 2 =
      .ok ⟨[0, 1, 0], ["t", "t", "u"], ["e1", "e2", "e3"], [0, 1, 2]⟩ ∧
    ([0, 1, 2] : List Int).length = (["e1", "e2", "e3"] : List String).length :=
  ⟨by decide, by rfl,
    get_model_predictions_ok_length
      [((0:Int), "t", "e1"), ((1:Int), "t", "e2"), ((0:Int), "u", "e3")]
      (⟨fun i j => if 2 * i + j = 1 then 1 else 0, fun i j => ((2 * i + j : Nat) : Int)⟩ :
        ModelOutput Int) 2
      ⟨[0, 1, 0], ["t", "t", "u"], ["e1", "e2", "e3"], [0, 1, 2]⟩ (by decide) (by rfl)⟩

theorem string_foldl_append (l : List String) :
    ∀ acc : String, l.foldl (· ++ ·) acc = acc ++ l.foldl (· ++ ·) "" := by
  induction l with
  | nil => intro acc; simp
  | cons a as ih =>
    intro acc
    simp only [List.foldl_cons]
    rw [ih (acc ++ a), ih ("" ++ a)]
    simp [String.append_assoc]

theorem join_cons (s : String) (l : List String) :
    String.join (s :: l) = s ++ String.join l := by
  simp only [String.join, List.foldl_cons]
  rw [string_foldl_append]
  simp

theorem writeScoresGo_spec [ToString α] (labels : List Int) (targets : List String)
    (scores : List α) (d : α) :
    ∀ (ex : List String) (i : Nat) (buf : String),
      i + ex.length ≤ labels.length → i + ex.length ≤ targets.length →
      i + ex.length ≤ scores.length →
      writeScoresGo labels targets scores ex i buf =
        some (buf ++ String.join ((List.range ex.length).map (fun t =>
          String.intercalate " " [toString (labels.getD (i+t) 0), targets.getD (i+t) "",
            ex.getD t "", toString (scores.getD (i+t) d)] ++ "\n"))) := by
  intro ex
  induction ex with
  | nil =>
    intro i buf _ _ _
    simp [writeScoresGo, String.join]
  | cons e rest ih =>
    intro i buf hL hT hS
    have hLi : i < labels.length := by simp at hL; omega
    have hTi : i < targets.length := by simp at hT; omega
    have hSi : i < scores.length := by simp at hS; omega
    have hgL : labels.get? i = some (labels.getD i 0) := by
      rw [List.getD_eq_getElem?_getD]
      rw [List.get?_eq_getElem?]
      cases hx : labels[i]? with
      | none => exact absurd hx (by simp [List.getElem?_eq_none_iff]; omega)
      | some v => simp
    have hgT : targets.get? i = some (targets.getD i "") := by
      rw [List.getD_eq_getElem?_getD]
      rw [List.get?_eq_getElem?]
      cases hx : targets[i]? with
      | none => exact absurd hx (by simp [List.getElem?_eq_none_iff]; omega)
      | some v => simp
    have hgS : scores.get? i = some (scores.getD i d) := by
      rw [List.getD_eq_getElem?_getD]
      rw [List.get?_eq_getElem?]
      cases hx : scores[i]? with
      | none => exact absurd hx (by simp [List.getElem?_eq_none_iff]; omega)
      | some v => simp
    simp only [writeScoresGo, hgL, hgT, hgS]
    rw [ih (i+1) _ (by simp at hL ⊢; omega) (by simp at hT ⊢; omega) (by simp at hS ⊢; omega)]
    rw [List.length_cons, List.range_succ_eq_map, List.map_cons, join_cons, List.map_map]
    have hshift : ∀ t : Nat, i + 1 + t = i + (t + 1) := by omega
    simp only [Function.comp, hshift, List.getD_cons_succ, Nat.add_zero, List.getD_cons_zero,
      Nat.succ_eq_add_one]
    simp only [Function.comp_def, Nat.succ_eq_add_one, List.getElem?_cons_succ]
    simp [String.append_assoc]

/-- C5: `write_scores_to_file` writes exactly one line per example of the
results dictionary, in the order the examples appear, with the four
whitespace-separated fields in the order label, target, example, score, and
writes nothing else. -/
theorem write_scores_to_file_buf_eq [ToString α] (d : α) (r : ScoredData α)
    (hl : r.labels.length = r.examples.length)
    (ht : r.targets.length = r.examples.length)
    (hs : r.scores.length = r.examples.length) :
    write_scores_to_file_buf r =
      some (String.join ((List.range r.examples.length).map (fun i =>
        String.intercalate " " [toString (r.labels.getD i 0), r.targets.getD i "",
          r.examples.getD i "", toString (r.scores.getD i d)] ++ "\n"))) := by
  have h := writeScoresGo_spec r.labels r.targets r.scores d r.examples 0 ""
    (by omega) (by omega) (by omega)
  rw [write_scores_to_file_buf, h]
  congr 1
  simp [Nat.zero_add]

/-- Witness for C5: a concrete two-example results dictionary produces
exactly the two expected lines. -/
theorem write_scores_to_file_buf_eq_witness :
    write_scores_to_file_buf
        (⟨[0, 1], ["t", "u"], ["e1", "e2"], [(5:Int), 6]⟩ : ScoredData Int) =
      some "0 t e1 5\n1 u e2 6\n" := by
  have h := write_scores_to_file_buf_eq (0:Int)
    (⟨[0, 1], ["t", "u"], ["e1", "e2"], [(5:Int), 6]⟩ : ScoredData Int)
    (by decide) (by decide) (by decide)
  rw [h]
  decide

theorem length_fillParts (k : Nat) :
    ∀ (ts : List String) (i : Nat) (parts : List (List String)),
      (fillParts k i ts parts).length = parts.length := by
  intro ts
  induction ts with
  | nil => intro i parts; rfl
  | cons t ts ih =>
    intro i parts
    rw [fillParts, ih]
    simp

theorem get?_fillParts (k : Nat) :
    ∀ (ts : List String) (i : Nat) (parts : List (List String)) (r : Nat),
      (fillParts k i ts parts).get? r = (parts.get? r).map (· ++ selIdx k r i ts) := by
  intro ts
  induction ts with
  | nil =>
    intro i parts r
    simp [fillParts, selIdx]
  | cons t ts ih =>
    intro i parts r
    rw [fillParts, ih, get?_modifyAt]
    simp only [selIdx]
    by_cases hr : r = i % k
    · subst hr
      rw [if_pos rfl, if_pos rfl, Option.map_map]
      cases hp : parts.get? (i % k) <;> simp
    · rw [if_neg hr, if_neg (fun h => hr h.symm)]

theorem flatten_modifyAt_perm {α : Type} :
    ∀ (l : List (List α)) (m : Nat) (x : List α), m < l.length →
      (modifyAt l m (· ++ x)).flatten.Perm (l.flatten ++ x) := by
  intro l
  induction l with
  | nil => intro m x h; simp at h
  | cons a as ih =>
    intro m x h
    cases m with
    | zero =>
      simp only [modifyAt_cons_zero, List.flatten_cons, List.append_assoc]
      exact (List.Perm.append_left a (List.perm_append_comm))
    | succ m =>
      simp only [modifyAt_cons_succ, List.flatten_cons, List.append_assoc]
      exact List.Perm.append_left a (ih m x (by simpa using h))

theorem flatten_fillParts_perm (k : Nat) (hk : 0 < k) :
    ∀ (ts : List String) (i : Nat) (parts : List (List String)), parts.length = k →
      (fillParts k i ts parts).flatten.Perm (parts.flatten ++ ts) := by
  intro ts
  induction ts with
  | nil => intro i parts _; simp [fillParts]
  | cons t ts ih =>
    intro i parts hlen
    rw [fillParts]
    have h1 := ih (i+1) (modifyAt parts (i % k) (· ++ [t])) (by simpa using hlen)
    have h2 := flatten_modifyAt_perm parts (i % k) [t] (by rw [hlen]; exact Nat.mod_lt _ hk)
    have h3 := h1.trans ((h2.append_right ts).trans (List.Perm.refl _))
    have h4 : (parts.flatten ++ [t]) ++ ts = parts.flatten ++ (t :: ts) := by simp
    rw [h4] at h3
    exact h3

theorem selIdx_length (k r : Nat) :
    ∀ (ts : List String) (i : Nat),
      (selIdx k r i ts).length =
        (List.range ts.length).countP (fun q => decide ((i + q) % k = r)) := by
  intro ts
  induction ts with
  | nil => intro i; simp [selIdx]
  | cons t ts ih =>
    intro i
    have hmap : (List.range (ts.length + 1)).countP (fun q => decide ((i + q) % k = r)) =
        (List.range ts.length).countP (fun q => decide ((i + 1 + q) % k = r)) +
          (if i % k = r then 1 else 0) := by
      rw [List.range_succ_eq_map, List.countP_cons, List.countP_map]
      simp only [Function.comp_def, Nat.add_zero, decide_eq_true_eq]
      have hfun : (fun x : Nat => decide ((i + x.succ) % k = r)) =
          (fun q : Nat => decide ((i + 1 + q) % k = r)) := by
        funext q
        have hq2 : i + q.succ = i + 1 + q := by omega
        rw [hq2]
      rw [hfun]
    simp only [List.length_cons]
    rw [selIdx, hmap]
    by_cases h0 : i % k = r
    · rw [if_pos h0, if_pos h0, List.length_cons, ih (i+1)]
    · rw [if_neg h0, if_neg h0, ih (i+1)]
      omega

theorem countP_mod_range (k r : Nat) (hk : 0 < k) (hr : r < k) :
    ∀ n : Nat, (List.range n).countP (fun q => decide (q % k = r)) =
      n / k + (if r < n % k then 1 else 0) := by
  intro n
  induction n with
  | zero => simp [Nat.zero_div]
  | succ n ih =>
    rw [List.range_succ, List.countP_append, ih]
    have hmk : n % k < k := Nat.mod_lt _ hk
    by_cases hc : n % k = k - 1
    · have heq : n + 1 = k * (n / k + 1) := by
        have hd := Nat.div_add_mod n k
        have hm : k * (n / k + 1) = k * (n / k) + k := by ring
        omega
      have hdiv : (n + 1) / k = n / k + 1 := by
        rw [heq, Nat.mul_div_cancel_left _ hk]
      have hmod : (n + 1) % k = 0 := by
        rw [heq, Nat.mul_mod_right]
      rw [hdiv, hmod]
      simp only [List.countP_cons, List.countP_nil, decide_eq_true_eq]
      split_ifs <;> omega
    · have heq : n + 1 = (n % k + 1) + k * (n / k) := by
        have hd := Nat.div_add_mod n k
        omega
      have hdiv : (n + 1) / k = n / k := by
        rw [heq, Nat.add_mul_div_left _ _ hk, Nat.div_eq_of_lt (by omega)]
        omega
      have hmod : (n + 1) % k = n % k + 1 := by
        rw [heq, Nat.add_mul_mod_self_left, Nat.mod_eq_of_lt (by omega)]
      rw [hdiv, hmod]
      simp only [List.countP_cons, List.countP_nil, decide_eq_true_eq]
      split_ifs <;> omega

theorem flatten_replicate_nil {α : Type} (k : Nat) :
    (List.replicate k ([] : List α)).flatten = [] := by
  induction k with
  | zero => rfl
  | succ k ih => simp [List.replicate_succ, ih]

theorem k_fold_get? (targets : List String) (k r : Nat) :
    (k_fold_partitions targets k).get? r =
      if r < k then some (selIdx k r 0 targets) else none := by
  rw [k_fold_partitions, get?_fillParts]
  rw [List.get?_eq_getElem?, List.getElem?_replicate]
  by_cases h : r < k
  · rw [if_pos h, if_pos h]
    simp
  · rw [if_neg h, if_neg h]
    rfl

theorem mem_k_fold_partitions (targets : List String) (k : Nat) (p : List String) :
    p ∈ k_fold_partitions targets k ↔ ∃ r, r < k ∧ p = selIdx k r 0 targets := by
  rw [List.mem_iff_getElem]
  constructor
  · rintro ⟨r, hr, hget⟩
    have hlen : (k_fold_partitions targets k).length = k := by
      rw [k_fold_partitions, length_fillParts]
      simp
    have h2 : (k_fold_partitions targets k).get? r = some p := by
      rw [List.get?_eq_getElem?, List.getElem?_eq_getElem hr, hget]
    rw [k_fold_get?, if_pos (by omega)] at h2
    exact ⟨r, by omega, by injection h2 with h2; exact h2.symm⟩
  · rintro ⟨r, hr, hp⟩
    have h2 : (k_fold_partitions targets k).get? r = some p := by
      rw [k_fold_get?, if_pos hr, hp]
    have h3 := List.get?_eq_some.mp h2
    obtain ⟨hlt, hget⟩ := h3
    exact ⟨r, hlt, hget⟩

theorem selIdx_length_closed (targets : List String) (k r : Nat) (hk : 0 < k) (hr : r < k) :
    (selIdx k r 0 targets).length =
      targets.length / k + (if r < targets.length % k then 1 else 0) := by
  rw [selIdx_length]
  have hfun : (fun q : Nat => decide ((0 + q) % k = r)) =
      (fun q : Nat => decide (q % k = r)) := by
    funext q
    rw [Nat.zero_add]
  rw [hfun, countP_mod_range k r hk hr]

/-- C2: for every non-empty target dictionary and every `k ≥ 1`,
`k_fold_partitions` returns exactly `k` lists of targets that are pairwise
disjoint, whose union is the full target set, and whose sizes differ by at
most one; consequently in `write_k_fold_data`, for each fold, the train
targets and the test targets (the part) are disjoint and together cover
every target of the full data.  `targets` is the (shuffled) key list of the
data dictionary, hence distinct and non-empty. -/
theorem k_fold_partitions_spec (targets : List String) (k : Nat) (hk : 1 ≤ k)
    (_hne : targets ≠ []) (hnd : targets.Nodup) :
    (k_fold_partitions targets k).length = k ∧
    List.Pairwise List.Disjoint (k_fold_partitions targets k) ∧
    (∀ t, t ∈ targets ↔ ∃ part ∈ k_fold_partitions targets k, t ∈ part) ∧
    (∀ p ∈ k_fold_partitions targets k, ∀ q ∈ k_fold_partitions targets k,
      p.length ≤ q.length + 1) ∧
    (∀ part ∈ k_fold_partitions targets k,
      (∀ t, t ∈ targets ↔ (t ∈ train_targets targets part ∨ t ∈ part)) ∧
      (∀ t ∈ train_targets targets part, t ∉ part)) := by
  have hk0 : 0 < k := by omega
  have hperm : (k_fold_partitions targets k).flatten.Perm targets := by
    have h := flatten_fillParts_perm k hk0 targets 0 (List.replicate k []) (by simp)
    rw [flatten_replicate_nil] at h
    simpa [k_fold_partitions] using h
  have hnodupf : (k_fold_partitions targets k).flatten.Nodup := hperm.nodup_iff.mpr hnd
  have hmem : ∀ t, t ∈ targets ↔ ∃ part ∈ k_fold_partitions targets k, t ∈ part := by
    intro t
    rw [← hperm.mem_iff, List.mem_flatten]
  refine ⟨?_, ?_, hmem, ?_, ?_⟩
  · rw [k_fold_partitions, length_fillParts]
    simp
  · exact (List.nodup_flatten.mp hnodupf).2
  · intro p hp q hq
    obtain ⟨rp, hrp, hpe⟩ := (mem_k_fold_partitions targets k p).mp hp
    obtain ⟨rq, hrq, hqe⟩ := (mem_k_fold_partitions targets k q).mp hq
    rw [hpe, selIdx_length_closed targets k rp hk0 hrp,
        hqe, selIdx_length_closed targets k rq hk0 hrq]
    split_ifs <;> omega
  · intro part hpart
    have hsub : ∀ t ∈ part, t ∈ targets := by
      intro t ht
      exact hperm.mem_iff.mp (List.mem_flatten.mpr ⟨part, hpart, ht⟩)
    constructor
    · intro t
      constructor
      · intro htg
        by_cases hin : t ∈ part
        · exact Or.inr hin
        · left
          simp [train_targets, List.mem_filter, htg, hin]
      · rintro (hl | hr)
        · exact (List.mem_filter.mp hl).1
        · exact hsub t hr
    · intro t ht
      have := List.mem_filter.mp ht
      simpa using this.2

/-- Witness for C2: five distinct targets split into two folds. -/
theorem k_fold_partitions_spec_witness :
    (k_fold_partitions ["a", "b", "c", "d", "e"] 2).length = 2 ∧
    List.Pairwise List.Disjoint (k_fold_partitions ["a", "b", "c", "d", "e"] 2) ∧
    (∀ t, t ∈ ["a", "b", "c", "d", "e"] ↔
      ∃ part ∈ k_fold_partitions ["a", "b", "c", "d", "e"] 2, t ∈ part) ∧
    (∀ p ∈ k_fold_partitions ["a", "b", "c", "d", "e"] 2,
      ∀ q ∈ k_fold_partitions ["a", "b", "c", "d", "e"] 2, p.length ≤ q.length + 1) ∧
    (∀ part ∈ k_fold_partitions ["a", "b", "c", "d", "e"] 2,
      (∀ t, t ∈ ["a", "b", "c", "d", "e"] ↔
        (t ∈ train_targets ["a", "b", "c", "d", "e"] part ∨ t ∈ part)) ∧
      (∀ t ∈ train_targets ["a", "b", "c", "d", "e"] part, t ∉ part)) :=
  k_fold_partitions_spec ["a", "b", "c", "d", "e"] 2 (by decide) (by decide) (by decide)

theorem labels_insertGroup (d : List (String × List (Int × String))) (key : String)
    (v : Int × String) (hd : ∀ g ∈ d, ∀ p ∈ g.2, p.1 = 0 ∨ p.1 = 1)
    (hv : v.1 = 0 ∨ v.1 = 1) :
    ∀ g ∈ insertGroup d key v, ∀ p ∈ g.2, p.1 = 0 ∨ p.1 = 1 := by
  induction d with
  | nil =>
    intro g hg p hp
    simp [insertGroup] at hg
    subst hg
    simp at hp
    subst hp
    exact hv
  | cons a rest ih =>
    intro g hg p hp
    obtain ⟨a1, a2⟩ := a
    rw [insertGroup] at hg
    by_cases hkey : a1 = key
    · rw [if_pos hkey] at hg
      rcases List.mem_cons.mp hg with h | h
      · subst h
        simp at hp
        rcases hp with h2 | h2
        · exact hd (a1, a2) (by simp) p h2
        · subst h2
          exact hv
      · exact hd g (List.mem_cons_of_mem _ h) p hp
    · rw [if_neg hkey] at hg
      rcases List.mem_cons.mp hg with h | h
      · subst h
        exact hd (a1, a2) (by simp) p hp
      · exact ih (fun g2 hg2 => hd g2 (List.mem_cons_of_mem _ hg2)) g h p hp

theorem labels_group_by_target (rows : List (Int × String × String))
    (hbin : ∀ r ∈ rows, r.1 = 0 ∨ r.1 = 1) :
    ∀ g ∈ group_by_target rows, ∀ p ∈ g.2, p.1 = 0 ∨ p.1 = 1 := by
  rw [group_by_target]
  have hgen : ∀ (rs : List (Int × String × String)) (d : List (String × List (Int × String))),
      (∀ r ∈ rs, r.1 = 0 ∨ r.1 = 1) → (∀ g ∈ d, ∀ p ∈ g.2, p.1 = 0 ∨ p.1 = 1) →
      ∀ g ∈ rs.foldl (fun d r => insertGroup d r.2.1 (r.1, r.2.2)) d, ∀ p ∈ g.2,
        p.1 = 0 ∨ p.1 = 1 := by
    intro rs
    induction rs with
    | nil => intro d _ hd; simpa using hd
    | cons r rs ih =>
      intro d hrs hd
      rw [List.foldl_cons]
      exact ih _ (fun x hx => hrs x (List.mem_cons_of_mem _ hx))
        (labels_insertGroup d r.2.1 (r.1, r.2.2) hd (hrs r (by simp)))
  exact hgen rows [] hbin (by simp)

theorem labels_lookupGroup (d : List (String × List (Int × String))) (key : String)
    (hd : ∀ g ∈ d, ∀ p ∈ g.2, p.1 = 0 ∨ p.1 = 1) :
    ∀ p ∈ lookupGroup d key, p.1 = 0 ∨ p.1 = 1 := by
  intro p hp
  rw [lookupGroup] at hp
  cases hf : d.find? (fun g => g.1 = key) with
  | none => rw [hf] at hp; simp at hp
  | some g =>
    rw [hf] at hp
    exact hd g (List.mem_of_find?_eq_some hf) p hp

theorem labels_write_target_lines (data : List (String × List (Int × String)))
    (hd : ∀ g ∈ data, ∀ p ∈ g.2, p.1 = 0 ∨ p.1 = 1) (targets : List String) :
    ∀ line ∈ write_target_lines data targets, line.1 = 0 ∨ line.1 = 1 := by
  rw [write_target_lines]
  have hgen : ∀ (ts : List String) (init : List (Int × String × String)),
      (∀ l ∈ init, l.1 = 0 ∨ l.1 = 1) →
      ∀ line ∈ ts.foldl
        (fun lines t => lines ++ (lookupGroup data t).map (fun le => (le.1, t, le.2))) init,
        line.1 = 0 ∨ line.1 = 1 := by
    intro ts
    induction ts with
    | nil => intro init hinit; simpa using hinit
    | cons t ts ih =>
      intro init hinit
      rw [List.foldl_cons]
      refine ih _ ?_
      intro l hl
      rcases List.mem_append.mp hl with h | h
      · exact hinit l h
      · obtain ⟨le, hle, hmap⟩ := List.mem_map.mp h
        have := labels_lookupGroup data t hd le hle
        rw [← hmap]
        simpa using this
  exact hgen targets [] (by simp)

/-- C6: every label field held by the program's data records is binary,
as an invariant: if every parsed label of the input data file is 0 or 1,
then every row written by `write_k_fold_data`'s calls to
`write_target_data_to_file` (for any fold's target set) carries a label
that is 0 or 1, and the record returned by `get_model_predictions` carries
exactly those labels, so they are 0 or 1 as well. -/
theorem labels_binary_invariant (rows : List (Int × String × String))
    (hbin : ∀ r ∈ rows, r.1 = 0 ∨ r.1 = 1) :
    (∀ targets : List String,
      ∀ line ∈ write_target_lines (group_by_target rows) targets,
        line.1 = 0 ∨ line.1 = 1) ∧
    (∀ (α : Type) (out : ModelOutput α) (b : Nat) (d : ScoredData α),
      get_model_predictions rows out b = .ok d → ∀ l ∈ d.labels, l = 0 ∨ l = 1) := by
  constructor
  · intro targets
    exact labels_write_target_lines (group_by_target rows)
      (labels_group_by_target rows hbin) targets
  · intro α out b d hok
    rw [get_model_predictions] at hok
    cases hO : outerLoop (rows.map (fun r => r.1)) out b
        ((rows.map (fun r => r.1)).length / b + 1) 0 [] with
    | error e => rw [hO] at hok; exact absurd hok (by simp)
    | ok scores =>
      rw [hO] at hok
      injection hok with hok
      subst hok
      intro l hl
      simp only [ScoredData.labels] at hl
      obtain ⟨r, hr, hrl⟩ := List.mem_map.mp hl
      rw [← hrl]
      exact hbin r hr

/-- Witness for C6: a two-row binary-labeled data file. -/
theorem labels_binary_invariant_witness :
    (∀ targets : List String,
      ∀ line ∈ write_target_lines (group_by_target [((0:Int), "t", "e"), ((1:Int), "t", "f")])
        targets, line.1 = 0 ∨ line.1 = 1) ∧
    (∀ (α : Type) (out : ModelOutput α) (b : Nat) (d : ScoredData α),
      get_model_predictions [((0:Int), "t", "e"), ((1:Int), "t", "f")] out b = .ok d →
        ∀ l ∈ d.labels, l = 0 ∨ l = 1) :=
  labels_binary_invariant [((0:Int), "t", "e"), ((1:Int), "t", "f")] (by decide)

theorem cvExpected_succ (sd : Nat → Nat → ScoredData α) (k j : Nat) :
    cvExpected sd (k+1) j = appendData (cvExpected sd k j) (sd (k+1) j) := by
  have hr : List.range' 1 (k+1) = List.range' 1 k ++ [1 + 1 * k] := List.range'_concat 1 k
  have h1 : 1 + 1 * k = k + 1 := by omega
  rw [h1] at hr
  simp [cvExpected, appendData, hr]

theorem cvExpected_one (sd : Nat → Nat → ScoredData α) (j : Nat) :
    cvExpected sd 1 j = sd 1 j := by
  simp [cvExpected]

theorem foldl_snoc_fst {β γ : Type} (f : Nat → γ) :
    ∀ (m : Nat) (st : List γ × β),
      (List.range m).foldl (fun st2 j => (st2.1 ++ [f j], st2.2)) st =
        (st.1 ++ (List.range m).map f, st.2) := by
  intro m
  induction m with
  | zero => intro st; simp
  | succ m ih =>
    intro st
    rw [List.range_succ, List.foldl_append, ih st]
    simp [List.range_succ]

theorem foldl_snoc_snd {β γ : Type} (f : Nat → γ) :
    ∀ (m : Nat) (st : β × List γ),
      (List.range m).foldl (fun st2 j => (st2.1, st2.2 ++ [f j])) st =
        (st.1, st.2 ++ (List.range m).map f) := by
  intro m
  induction m with
  | zero => intro st; simp
  | succ m ih =>
    intro st
    rw [List.range_succ, List.foldl_append, ih st]
    simp [List.range_succ]

theorem foldl_modify_char {β γ : Type} (g : Nat → γ → γ) :
    ∀ (m : Nat) (st : β × List γ),
      ((List.range m).foldl (fun st2 j => (st2.1, modifyAt st2.2 j (g j))) st).1 = st.1 ∧
      ∀ r : Nat,
        ((List.range m).foldl (fun st2 j => (st2.1, modifyAt st2.2 j (g j))) st).2.get? r =
          if r < m then (st.2.get? r).map (g r) else st.2.get? r := by
  intro m
  induction m with
  | zero => intro st; simp
  | succ m ih =>
    intro st
    rw [List.range_succ, List.foldl_append]
    obtain ⟨ih1, ih2⟩ := ih st
    simp only [List.foldl_cons, List.foldl_nil]
    constructor
    · exact ih1
    · intro r
      rw [get?_modifyAt]
      by_cases hrm : r = m
      · rw [if_pos hrm, ih2 m, if_neg (by omega), hrm, if_pos (by omega)]
      · rw [if_neg hrm, ih2 r]
        by_cases hlt : r < m
        · rw [if_pos hlt, if_pos (by omega)]
        · rw [if_neg hlt, if_neg (by omega)]

theorem aggStep_zero (sd : Nat → Nat → ScoredData α) (m : Nat)
    (st : List (ScoredData α) × List (ScoredData α)) :
    aggStep sd m st 0 = (st.1 ++ (List.range m).map (sd 0), st.2) := by
  rw [aggStep]
  have hfeq : (fun (st2 : List (ScoredData α) × List (ScoredData α)) (j : Nat) =>
      let score_data := sd 0 j
      if (0:Nat) = 0 then (st2.1 ++ [score_data], st2.2)
      else if (0:Nat) = 1 then (st2.1, st2.2 ++ [score_data])
      else (st2.1, modifyAt st2.2 j (fun x => appendData x score_data))) =
      (fun st2 j => (st2.1 ++ [sd 0 j], st2.2)) := by
    funext st2 j
    simp
  rw [hfeq, foldl_snoc_fst (sd 0) m st]

theorem aggStep_one (sd : Nat → Nat → ScoredData α) (m : Nat)
    (st : List (ScoredData α) × List (ScoredData α)) :
    aggStep sd m st 1 = (st.1, st.2 ++ (List.range m).map (sd 1)) := by
  rw [aggStep]
  have hfeq : (fun (st2 : List (ScoredData α) × List (ScoredData α)) (j : Nat) =>
      let score_data := sd 1 j
      if (1:Nat) = 0 then (st2.1 ++ [score_data], st2.2)
      else if (1:Nat) = 1 then (st2.1, st2.2 ++ [score_data])
      else (st2.1, modifyAt st2.2 j (fun x => appendData x score_data))) =
      (fun st2 j => (st2.1, st2.2 ++ [sd 1 j])) := by
    funext st2 j
    simp
  rw [hfeq, foldl_snoc_snd (sd 1) m st]

/-- Fold iterations `i ≥ 2` of the aggregation: the test-on-train series is
untouched and the cross-validation series is concatenated onto pointwise in
its first `m` entries. -/
theorem aggStep_ge_two (sd : Nat → Nat → ScoredData α) (m i : Nat)
    (hi0 : i ≠ 0) (hi1 : i ≠ 1)
    (st : List (ScoredData α) × List (ScoredData α)) :
    (aggStep sd m st i).1 = st.1 ∧
    ∀ r : Nat, (aggStep sd m st i).2.get? r =
      if r < m then (st.2.get? r).map (fun x => appendData x (sd i r)) else st.2.get? r := by
  rw [aggStep]
  have hfeq : (fun (st2 : List (ScoredData α) × List (ScoredData α)) (j : Nat) =>
      let score_data := sd i j
      if i = 0 then (st2.1 ++ [score_data], st2.2)
      else if i = 1 then (st2.1, st2.2 ++ [score_data])
      else (st2.1, modifyAt st2.2 j (fun x => appendData x score_data))) =
      (fun st2 j => (st2.1, modifyAt st2.2 j (fun x => appendData x (sd i j)))) := by
    funext st2 j
    simp [if_neg hi0, if_neg hi1]
  rw [hfeq]
  exact foldl_modify_char (fun j x => appendData x (sd i j)) m st

theorem aggregate_scores_char (sd : Nat → Nat → ScoredData α) (m : Nat) :
    ∀ k, 1 ≤ k →
      (aggregate_scores sd k m).1 = (List.range m).map (sd 0) ∧
      (aggregate_scores sd k m).2.length = m ∧
      ∀ j, j < m → (aggregate_scores sd k m).2.get? j = some (cvExpected sd k j) := by
  intro k hk
  induction k, hk using Nat.le_induction with
  | base =>
    rw [aggregate_scores]
    rw [show List.range (1+1) = [0, 1] from rfl]
    rw [List.foldl_cons, List.foldl_cons, List.foldl_nil]
    rw [aggStep_zero, aggStep_one]
    refine ⟨by simp, by simp, ?_⟩
    intro j hj
    rw [cvExpected_one]
    simp only [List.nil_append]
    rw [List.get?_eq_getElem?, List.getElem?_map]
    simp [List.getElem?_range hj]
  | succ k hk ih =>
    rw [aggregate_scores] at ih ⊢
    rw [List.range_succ, List.foldl_append, List.foldl_cons, List.foldl_nil]
    obtain ⟨ih1, ih2, ih3⟩ := ih
    obtain ⟨h1, h2⟩ := aggStep_ge_two sd m (k+1) (by omega) (by omega)
      ((List.range (k+1)).foldl (aggStep sd m) ([], []))
    have hgm : ∀ j, j < m →
        (aggStep sd m ((List.range (k+1)).foldl (aggStep sd m) ([], [])) (k+1)).2.get? j =
          some (cvExpected sd (k+1) j) := by
      intro j hj
      rw [h2 j, if_pos hj, ih3 j hj]
      simp only [Option.map_some']
      rw [cvExpected_succ]
    refine ⟨by rw [h1, ih1], ?_, hgm⟩
    have hnone :
        (aggStep sd m ((List.range (k+1)).foldl (aggStep sd m) ([], [])) (k+1)).2.get? m =
          none := by
      rw [h2 m, if_neg (by omega)]
      exact List.get?_eq_none.mpr (by omega)
    have hub := List.get?_eq_none.mp hnone
    by_cases hm : m = 0
    · omega
    · have hsome := hgm (m-1) (by omega)
      have hlb : ¬ (aggStep sd m ((List.range (k+1)).foldl (aggStep sd m) ([], []))
          (k+1)).2.length ≤ m - 1 := by
        intro hle
        rw [List.get?_eq_none.mpr hle] at hsome
        exact absurd hsome (by simp)
      omega



/-- C3: during cross-validation score aggregation, for every snapshot index
`j` the aggregated cross-validation series `all_score_data[1][j]` equals
the field-wise concatenation, in fold order, of the labels, targets,
examples and scores of folds 1 through `k` for that snapshot
(`cvExpected`), while the test-on-train series `all_score_data[0]` holds
only fold-0 (full-data) results, one entry per snapshot, in snapshot
order. -/
theorem crossval_score_aggregation {α : Type} (sd : Nat → Nat → ScoredData α)
    (k m j : Nat) (hk : 1 ≤ k) (hj : j < m) :
    (aggregate_scores sd k m).1 = (List.range m).map (sd 0) ∧
    (aggregate_scores sd k m).2.length = m ∧
    (aggregate_scores sd k m).2.get? j = some (cvExpected sd k j) := by
  obtain ⟨h1, h2, h3⟩ := aggregate_scores_char sd m k hk
  exact ⟨h1, h2, h3 j hj⟩

/-- Witness for C3: four folds (k = 3), two snapshots, checked at snapshot
index 1. -/
theorem crossval_score_aggregation_witness :
    (aggregate_scores (fun i j => (⟨[(i:Int)], ["t"], ["e"], [(j:Int)]⟩ : ScoredData Int))
        3 2).1 =
      (List.range 2).map (fun j =>
        (⟨[(0:Int)], ["t"], ["e"], [(j:Int)]⟩ : ScoredData Int)) ∧
    (aggregate_scores (fun i j => (⟨[(i:Int)], ["t"], ["e"], [(j:Int)]⟩ : ScoredData Int))
        3 2).2.length = 2 ∧
    (aggregate_scores (fun i j => (⟨[(i:Int)], ["t"], ["e"], [(j:Int)]⟩ : ScoredData Int))
        3 2).2.get? 1 =
      some (cvExpected (fun i j => (⟨[(i:Int)], ["t"], ["e"], [(j:Int)]⟩ : ScoredData Int)) 3 1) :=
  crossval_score_aggregation
    (fun i j => (⟨[(i:Int)], ["t"], ["e"], [(j:Int)]⟩ : ScoredData Int)) 3 2 1
    (by decide) (by decide)

theorem snap_iters_mem (max_iter snapshot : Nat) (hs : 1 ≤ snapshot) (j : Nat) :
    j ∈ snap_iters max_iter snapshot ↔
      ∃ t, 1 ≤ t ∧ j = t * snapshot ∧ j ≤ max_iter := by
  rw [snap_iters]
  rw [if_neg (by omega : ¬ snapshot = 0)]
  rw [pyRange]
  have hcnt : (max_iter + 1 - snapshot + snapshot - 1) / snapshot = max_iter / snapshot := by
    by_cases hle : snapshot ≤ max_iter + 1
    · have heq : max_iter + 1 - snapshot + snapshot - 1 = max_iter := by omega
      rw [heq]
    · have h1 : max_iter + 1 - snapshot = 0 := by omega
      rw [h1]
      rw [Nat.div_eq_of_lt (by omega), Nat.div_eq_of_lt (by omega)]
  rw [hcnt]
  simp only [List.mem_map, List.mem_range]
  constructor
  · rintro ⟨t, ht, hj⟩
    refine ⟨t + 1, by omega, ?_, ?_⟩
    · rw [← hj]
      ring
    · have hd := (Nat.le_div_iff_mul_le (show 0 < snapshot by omega)).mp
        (by omega : t + 1 ≤ max_iter / snapshot)
      have he : (t + 1) * snapshot = snapshot + t * snapshot := by ring
      omega
  · rintro ⟨t, ht, hj, hle⟩
    refine ⟨t - 1, ?_, ?_⟩
    · have := (Nat.le_div_iff_mul_le (show 0 < snapshot by omega)).mpr
        (by omega : t * snapshot ≤ max_iter)
      omega
    · have he : snapshot + (t - 1) * snapshot = (t - 1 + 1) * snapshot := by ring
      have ht1 : t - 1 + 1 = t := by omega
      rw [he, ht1, hj]

theorem snap_iters_default (max_iter : Nat) (h : 1 ≤ max_iter) :
    snap_iters max_iter 0 = [max_iter] := by
  show pyRange max_iter (max_iter + 1) max_iter = [max_iter]
  rw [pyRange]
  have hcnt : (max_iter + 1 - max_iter + max_iter - 1) / max_iter = 1 := by
    have heq : max_iter + 1 - max_iter + max_iter - 1 = max_iter := by omega
    rw [heq, Nat.div_self (by omega)]
  rw [hcnt]
  rw [show List.range 1 = [0] from rfl]
  simp

/-- C4: `generate_crossval_files` names weight and score files as a
function of (fold index, model parameter, snapshot iteration): for fold `i`
(part parameter `'full'` for `i = 0`, `'part' + str(i)` otherwise) and
every snapshot iteration `j` among `{snap_iter, 2*snap_iter, ...}` up to
`max_iter`, the weight file is `output_dir` joined with `model_param`, the
part parameter and `'iter_' + str(j)` concatenated by `'_'` with suffix
`.caffemodel`, and the score file is the same name with suffix `.scores`;
when the solver's `snapshot` field is zero/unset, `snap_iter` defaults to
`max_iter`, so exactly one snapshot per fold is named. -/
theorem generate_crossval_files_naming (output_dir full_data_file data_dir data_param
    data_ext model_param solver_param : String) (max_iter snapshot k i : Nat)
    (hi : i ≤ k) (hmax : 1 ≤ max_iter) :
    (generate_crossval_files output_dir full_data_file data_dir data_param data_ext
        model_param solver_param max_iter snapshot k).weights.get? i =
      some ((snap_iters max_iter snapshot).map (fun j =>
        os_path_join output_dir (String.intercalate "_"
          [model_param, part_param i, "iter_" ++ toString j] ++ ".caffemodel"))) ∧
    (generate_crossval_files output_dir full_data_file data_dir data_param data_ext
        model_param solver_param max_iter snapshot k).scores.get? i =
      some ((snap_iters max_iter snapshot).map (fun j =>
        os_path_join output_dir (String.intercalate "_"
          [model_param, part_param i, "iter_" ++ toString j] ++ ".scores"))) ∧
    part_param 0 = "full" ∧
    (∀ i2 : Nat, i2 ≠ 0 → part_param i2 = "part" ++ toString i2) ∧
    (1 ≤ snapshot → ∀ j, j ∈ snap_iters max_iter snapshot ↔
      ∃ t, 1 ≤ t ∧ j = t * snapshot ∧ j ≤ max_iter) ∧
    (snapshot = 0 → snap_iters max_iter snapshot = [max_iter]) := by
  refine ⟨?_, ?_, rfl, ?_, ?_, fun h0 => by rw [h0]; exact snap_iters_default max_iter hmax⟩
  · rw [generate_crossval_files]
    simp only [List.get?_eq_getElem?, List.getElem?_map,
      List.getElem?_range (show i < k + 1 by omega), Option.map_some']
  · rw [generate_crossval_files]
    simp only [List.get?_eq_getElem?, List.getElem?_map,
      List.getElem?_range (show i < k + 1 by omega), Option.map_some']
  · intro i2 hi2
    rw [part_param, if_neg hi2]
  · intro hs j
    exact snap_iters_mem max_iter snapshot hs j

/-- Witness for C4: concrete parameters with `max_iter = 4`,
`snapshot = 2`, four folds, checked at fold 1. -/
theorem generate_crossval_files_naming_witness :
    (generate_crossval_files "out" "d/data.types" "d" "data" ".types"
        "mymodel" "mysolver" 4 2 3).weights.get? 1 =
      some ((snap_iters 4 2).map (fun j =>
        os_path_join "out" (String.intercalate "_"
          ["mymodel", part_param 1, "iter_" ++ toString j] ++ ".caffemodel"))) ∧
    (generate_crossval_files "out" "d/data.types" "d" "data" ".types"
        "mymodel" "mysolver" 4 2 3).scores.get? 1 =
      some ((snap_iters 4 2).map (fun j =>
        os_path_join "out" (String.intercalate "_"
          ["mymodel", part_param 1, "iter_" ++ toString j] ++ ".scores"))) ∧
    part_param 0 = "full" ∧
    (∀ i2 : Nat, i2 ≠ 0 → part_param i2 = "part" ++ toString i2) ∧
    (1 ≤ 2 → ∀ j, j ∈ snap_iters 4 2 ↔ ∃ t, 1 ≤ t ∧ j = t * 2 ∧ j ≤ 4) ∧
    ((2:Nat) = 0 → snap_iters 4 2 = [4]) :=
  generate_crossval_files_naming "out" "d/data.types" "d" "data" ".types"
    "mymodel" "mysolver" 4 2 3 1 (by decide) (by decide)

theorem string_append_left_cancel (s a b : String) (h : s ++ a = s ++ b) : a = b := by
  have hd := congrArg String.data h
  simp only [String.data_append] at hd
  exact String.ext (List.append_cancel_left hd)

theorem os_path_join_right_inj (dir a b : String)
    (h : os_path_join dir a = os_path_join dir b) : a = b := by
  rw [os_path_join, os_path_join] at h
  by_cases h1 : dir = ""
  · rw [if_pos h1, if_pos h1] at h
    exact h
  · rw [if_neg h1, if_neg h1] at h
    by_cases h2 : dir.endsWith "/"
    · rw [if_pos h2, if_pos h2] at h
      exact string_append_left_cancel dir a b h
    · rw [if_neg h2, if_neg h2] at h
      rw [String.append_assoc, String.append_assoc] at h
      exact string_append_left_cancel "/" a b
        (string_append_left_cancel dir ("/" ++ a) ("/" ++ b) h)

theorem range_getD_map {α β : Type} (g : α → β) (d : α) :
    ∀ l : List α, (List.range l.length).map (fun i => g (l.getD i d)) = l.map g := by
  intro l
  induction l with
  | nil => simp
  | cons x xs ih =>
    rw [List.length_cons, List.range_succ_eq_map, List.map_cons, List.map_map, List.map_cons]
    have hfun : ((fun i => g ((x :: xs).getD i d)) ∘ Nat.succ) =
        (fun i => g (xs.getD i d)) := by
      funext i
      simp
    rw [hfun, ih]
    simp

theorem crossval_train_commands_eq_map (solvers : List String) (gpus : String) (k : Nat)
    (hlen : solvers.length = k + 1) :
    crossval_train_commands solvers gpus k =
      solvers.map (fun s => "caffe train -solver " ++ s ++ " -gpu " ++ gpus) := by
  rw [crossval_train_commands, ← hlen]
  exact range_getD_map (fun s => "caffe train -solver " ++ s ++ " -gpu " ++ gpus) "" solvers

theorem solver_files_nodup (output_dir solver_param : String) :
    ((List.range 4).map (fun i =>
      os_path_join output_dir
        (String.intercalate "_" [solver_param, part_param i] ++ ".solver.prototxt"))).Nodup := by
  have hinj : ∀ i j : Nat,
      part_param i ++ ".solver.prototxt" ≠ part_param j ++ ".solver.prototxt" →
      os_path_join output_dir
          (String.intercalate "_" [solver_param, part_param i] ++ ".solver.prototxt") ≠
        os_path_join output_dir
          (String.intercalate "_" [solver_param, part_param j] ++ ".solver.prototxt") := by
    intro i j hne h
    have h2 := os_path_join_right_inj output_dir _ _ h
    rw [show String.intercalate "_" [solver_param, part_param i] =
          solver_param ++ "_" ++ part_param i from rfl,
        show String.intercalate "_" [solver_param, part_param j] =
          solver_param ++ "_" ++ part_param j from rfl] at h2
    rw [String.append_assoc, String.append_assoc, String.append_assoc,
      String.append_assoc] at h2
    have h3 := string_append_left_cancel solver_param _ _ h2
    have h4 := string_append_left_cancel "_" _ _ h3
    exact hne h4
  rw [show List.range 4 = [0, 1, 2, 3] from rfl]
  simp only [List.map_cons, List.map_nil]
  refine List.nodup_cons.mpr ⟨?_, List.nodup_cons.mpr ⟨?_, List.nodup_cons.mpr
    ⟨?_, List.nodup_singleton _⟩⟩⟩
  · simp only [List.mem_cons, List.not_mem_nil, or_false]
    push_neg
    exact ⟨hinj 0 1 (by decide), hinj 0 2 (by decide), hinj 0 3 (by decide)⟩
  · simp only [List.mem_cons, List.not_mem_nil, or_false]
    push_neg
    exact ⟨hinj 1 2 (by decide), hinj 1 3 (by decide)⟩
  · simp only [List.mem_cons, List.not_mem_nil, or_false]
    push_neg
    exact hinj 2 3 (by decide)

/-- C8: `crossval_model` invokes the external trainer sequentially, exactly
once per generated solver file, i.e. exactly `k+1 = 4` times (one per
cross-validation fold plus one on the full dataset): the invocation trace
is the in-order map of the command template over the 4 generated solver
files, which are pairwise distinct.  The trace is a list, i.e. the
`os.system` calls run one after another with no concurrency. -/
theorem crossval_trainer_invocations (output_dir full_data_file data_dir data_param
    data_ext model_param solver_param gpus : String) (max_iter snapshot : Nat) :
    crossval_train_commands
        (generate_crossval_files output_dir full_data_file data_dir data_param data_ext
          model_param solver_param max_iter snapshot 3).solvers gpus 3 =
      (generate_crossval_files output_dir full_data_file data_dir data_param data_ext
          model_param solver_param max_iter snapshot 3).solvers.map
        (fun s => "caffe train -solver " ++ s ++ " -gpu " ++ gpus) ∧
    (generate_crossval_files output_dir full_data_file data_dir data_param data_ext
        model_param solver_param max_iter snapshot 3).solvers.length = 3 + 1 ∧
    (crossval_train_commands
        (generate_crossval_files output_dir full_data_file data_dir data_param data_ext
          model_param solver_param max_iter snapshot 3).solvers gpus 3).length = 3 + 1 ∧
    (generate_crossval_files output_dir full_data_file data_dir data_param data_ext
        model_param solver_param max_iter snapshot 3).solvers.Nodup := by
  have hlen : (generate_crossval_files output_dir full_data_file data_dir data_param
      data_ext model_param solver_param max_iter snapshot 3).solvers.length = 3 + 1 := by
    rw [generate_crossval_files]
    simp
  refine ⟨crossval_train_commands_eq_map _ gpus 3 hlen, hlen, ?_, ?_⟩
  · rw [crossval_train_commands]
    simp
  · rw [generate_crossval_files]
    exact solver_files_nodup output_dir solver_param

theorem collectTokens_flag_nil (options : List String) (tok : String)
    (opts : List (String × String)) (pos : List String)
    (hc : options.contains tok = true) :
    collectTokens options [tok] opts pos =
      .error ("argument " ++ tok ++ ": expected one argument") := by
  rw [collectTokens.eq_def]
  simp only [hc, if_true]

theorem collectTokens_flag_cons (options : List String) (tok v : String)
    (rest2 : List String) (opts : List (String × String)) (pos : List String)
    (hc : options.contains tok = true) :
    collectTokens options (tok :: v :: rest2) opts pos =
      collectTokens options rest2 (opts ++ [(tok, v)]) pos := by
  rw [collectTokens.eq_def]
  simp only [hc, if_true]

theorem collectTokens_pos_cons (options : List String) (tok : String)
    (rest : List String) (opts : List (String × String)) (pos : List String)
    (hc : options.contains tok = false) :
    collectTokens options (tok :: rest) opts pos =
      collectTokens options rest opts (pos ++ [tok]) := by
  conv_lhs => rw [collectTokens.eq_def]
  simp only [hc, Bool.false_eq_true, if_false]

theorem collectTokens_result (options : List String) :
    ∀ (n : Nat) (argv : List String), argv.length ≤ n →
      ∀ (opts : List (String × String)) (pos : List String),
        (∃ e, collectTokens options argv opts pos = .error e) ∨
        (∃ opts2 tail, collectTokens options argv opts pos = .ok (opts2, pos ++ tail)) := by
  intro n
  induction n with
  | zero =>
    intro argv hlen opts pos
    cases argv with
    | nil =>
      right
      exact ⟨opts, [], by simp [collectTokens]⟩
    | cons tok rest => simp at hlen
  | succ n ih =>
    intro argv hlen opts pos
    cases argv with
    | nil =>
      right
      exact ⟨opts, [], by simp [collectTokens]⟩
    | cons tok rest =>
      by_cases hc : options.contains tok = true
      · cases rest with
        | nil =>
          left
          exact ⟨"argument " ++ tok ++ ": expected one argument",
            collectTokens_flag_nil options tok opts pos hc⟩
        | cons v rest2 =>
          rw [collectTokens_flag_cons options tok v rest2 opts pos hc]
          exact ih rest2 (by simp at hlen ⊢; omega) (opts ++ [(tok, v)]) pos
      · have hcf : options.contains tok = false := by
          cases hcc : options.contains tok with
          | false => rfl
          | true => exact absurd hcc hc
        rw [collectTokens_pos_cons options tok rest opts pos hcf]
        rcases ih rest (by simp at hlen ⊢; omega) opts (pos ++ [tok]) with
          ⟨e, he⟩ | ⟨opts2, tail, ht⟩
        · exact Or.inl ⟨e, he⟩
        · right
          refine ⟨opts2, [tok] ++ tail, ?_⟩
          rw [ht]
          simp

/-- C7: `parse_args` accepts exactly two subcommands, `crossval` and
`test`; a subcommand is required (an empty argv is an error, and a leading
token that is neither a flag nor one of the two subcommands is an error);
both subcommands share the three optional flags `-g`, `-o`, `-b`;
`crossval` takes positional arguments `data_file`, `model_file`,
`solver_file` and `test` takes `data_file`, `model_file`, `weight_file`. -/
theorem parse_args_spec (d m s w g o b : String)
    (hd : d ∉ p_global_options) (hm : m ∉ p_global_options)
    (hs : s ∉ p_global_options) (hw : w ∉ p_global_options) :
    (∀ argv a, runParser p_task argv = .ok a → a.task = "crossval" ∨ a.task = "test") ∧
    (∃ e, runParser p_task [] = .error e) ∧
    (∀ cmd, cmd ∉ p_global_options → cmd ≠ "crossval" → cmd ≠ "test" →
      ∀ rest, ∃ e, runParser p_task (cmd :: rest) = .error e) ∧
    runParser p_task ["crossval", d, m, s] =
      .ok ⟨"crossval", [], [("data_file", d), ("model_file", m), ("solver_file", s)]⟩ ∧
    runParser p_task ["test", d, m, w] =
      .ok ⟨"test", [], [("data_file", d), ("model_file", m), ("weight_file", w)]⟩ ∧
    runParser p_task ["-g", g, "-o", o, "-b", b, "crossval", d, m, s] =
      .ok ⟨"crossval", [("-g", g), ("-o", o), ("-b", b)],
        [("data_file", d), ("model_file", m), ("solver_file", s)]⟩ ∧
    runParser p_task ["-g", g, "-o", o, "-b", b, "test", d, m, w] =
      .ok ⟨"test", [("-g", g), ("-o", o), ("-b", b)],
        [("data_file", d), ("model_file", m), ("weight_file", w)]⟩ := by
  have hcontains : ∀ x : String, x ∉ p_global_options →
      p_global_options.contains x = false := by
    intro x hx
    cases hcc : p_global_options.contains x with
    | false => rfl
    | true => exact absurd (List.mem_of_elem_eq_true hcc) hx
  have hd2 := hcontains d hd
  have hm2 := hcontains m hm
  have hs2 := hcontains s hs
  have hw2 := hcontains w hw
  have hopt : p_task.options = p_global_options := rfl
  refine ⟨?_, ?_, ?_, ?_, ?_, ?_, ?_⟩
  · intro argv a hok
    rw [runParser] at hok
    cases hct : collectTokens p_task.options argv [] [] with
    | error e => rw [hct] at hok; exact absurd hok (by simp)
    | ok pr =>
      obtain ⟨opts, pos⟩ := pr
      rw [hct] at hok
      simp only [] at hok
      cases pos with
      | nil =>
        rw [show p_task.required = true from rfl] at hok
        exact absurd hok (by simp)
      | cons cmd rest =>
        simp only [] at hok
        cases hf : p_task.subs.find? (fun sub => sub.name = cmd) with
        | none =>
          rw [hf] at hok
          exact absurd hok (by simp)
        | some sub =>
          rw [hf] at hok
          simp only [] at hok
          by_cases hlen : rest.length = sub.positionals.length
          · rw [if_pos hlen] at hok
            injection hok with hok
            subst hok
            have hmem := List.mem_of_find?_eq_some hf
            simp only [p_task, p_crossval, p_test, List.mem_cons, List.not_mem_nil,
              or_false] at hmem
            rcases hmem with h | h <;> rw [h] <;> simp
          · rw [if_neg hlen] at hok
            exact absurd hok (by simp)
  · exact ⟨"the following arguments are required: task", rfl⟩
  · intro cmd hcmd hcv hctest rest
    have hcmd2 := hcontains cmd hcmd
    rw [runParser]
    rw [collectTokens_pos_cons p_task.options cmd rest [] [] (hopt ▸ hcmd2)]
    rcases collectTokens_result p_task.options rest.length rest (le_refl _) [] ([] ++ [cmd])
      with ⟨e, he⟩ | ⟨opts2, tail, ht⟩
    · rw [he]
      exact ⟨e, rfl⟩
    · rw [ht]
      simp only [List.nil_append, List.cons_append]
      have hfind : p_task.subs.find? (fun sub => sub.name = cmd) = none := by
        rw [show p_task.subs = [p_crossval, p_test] from rfl]
        rw [List.find?_cons_of_neg _ (by
          simp only [p_crossval, decide_eq_true_eq]
          exact fun h => hcv h.symm)]
        rw [List.find?_cons_of_neg _ (by
          simp only [p_test, decide_eq_true_eq]
          exact fun h => hctest h.symm)]
        rfl
      rw [hfind]
      exact ⟨"invalid choice: " ++ cmd, rfl⟩
  · rw [runParser]
    rw [collectTokens_pos_cons _ _ _ _ _ (show p_task.options.contains "crossval" = false from rfl)]
    rw [collectTokens_pos_cons _ _ _ _ _ (hopt ▸ hd2)]
    rw [collectTokens_pos_cons _ _ _ _ _ (hopt ▸ hm2)]
    rw [collectTokens_pos_cons _ _ _ _ _ (hopt ▸ hs2)]
    rfl
  · rw [runParser]
    rw [collectTokens_pos_cons _ _ _ _ _ (show p_task.options.contains "test" = false from rfl)]
    rw [collectTokens_pos_cons _ _ _ _ _ (hopt ▸ hd2)]
    rw [collectTokens_pos_cons _ _ _ _ _ (hopt ▸ hm2)]
    rw [collectTokens_pos_cons _ _ _ _ _ (hopt ▸ hw2)]
    rfl
  · rw [runParser]
    rw [collectTokens_flag_cons _ _ _ _ _ _ (show p_task.options.contains "-g" = true from rfl)]
    rw [collectTokens_flag_cons _ _ _ _ _ _ (show p_task.options.contains "-o" = true from rfl)]
    rw [collectTokens_flag_cons _ _ _ _ _ _ (show p_task.options.contains "-b" = true from rfl)]
    rw [collectTokens_pos_cons _ _ _ _ _ (show p_task.options.contains "crossval" = false from rfl)]
    rw [collectTokens_pos_cons _ _ _ _ _ (hopt ▸ hd2)]
    rw [collectTokens_pos_cons _ _ _ _ _ (hopt ▸ hm2)]
    rw [collectTokens_pos_cons _ _ _ _ _ (hopt ▸ hs2)]
    rfl
  · rw [runParser]
    rw [collectTokens_flag_cons _ _ _ _ _ _ (show p_task.options.contains "-g" = true from rfl)]
    rw [collectTokens_flag_cons _ _ _ _ _ _ (show p_task.options.contains "-o" = true from rfl)]
    rw [collectTokens_flag_cons _ _ _ _ _ _ (show p_task.options.contains "-b" = true from rfl)]
    rw [collectTokens_pos_cons _ _ _ _ _ (show p_task.options.contains "test" = false from rfl)]
    rw [collectTokens_pos_cons _ _ _ _ _ (hopt ▸ hd2)]
    rw [collectTokens_pos_cons _ _ _ _ _ (hopt ▸ hm2)]
    rw [collectTokens_pos_cons _ _ _ _ _ (hopt ▸ hw2)]
    rfl

/-- Witness for C7: concrete non-flag argument values. -/
theorem parse_args_spec_witness :
    (∀ argv a, runParser p_task argv = .ok a → a.task = "crossval" ∨ a.task = "test") ∧
    (∃ e, runParser p_task [] = .error e) ∧
    (∀ cmd, cmd ∉ p_global_options → cmd ≠ "crossval" → cmd ≠ "test" →
      ∀ rest, ∃ e, runParser p_task (cmd :: rest) = .error e) ∧
    runParser p_task ["crossval", "d.types", "m.model.prototxt", "s.solver.prototxt"] =
      .ok ⟨"crossval", [], [("data_file", "d.types"), ("model_file", "m.model.prototxt"),
        ("solver_file", "s.solver.prototxt")]⟩ ∧
    runParser p_task ["test", "d.types", "m.model.prototxt", "w.caffemodel"] =
      .ok ⟨"test", [], [("data_file", "d.types"), ("model_file", "m.model.prototxt"),
        ("weight_file", "w.caffemodel")]⟩ ∧
    runParser p_task ["-g", "0,1", "-o", "out", "-b", "root", "crossval", "d.types",
        "m.model.prototxt", "s.solver.prototxt"] =
      .ok ⟨"crossval", [("-g", "0,1"), ("-o", "out"), ("-b", "root")],
        [("data_file", "d.types"), ("model_file", "m.model.prototxt"),
         ("solver_file", "s.solver.prototxt")]⟩ ∧
    runParser p_task ["-g", "0,1", "-o", "out", "-b", "root", "test", "d.types",
        "m.model.prototxt", "w.caffemodel"] =
      .ok ⟨"test", [("-g", "0,1"), ("-o", "out"), ("-b", "root")],
        [("data_file", "d.types"), ("model_file", "m.model.prototxt"),
         ("weight_file", "w.caffemodel")]⟩ :=
  parse_args_spec "d.types" "m.model.prototxt" "s.solver.prototxt" "w.caffemodel"
    "0,1" "out" "root" (by decide) (by decide) (by decide) (by decide)

theorem write_model_prototxt_frame (p : NetParameter) (a b c : String) :
    (write_model_prototxt p a b c).2 = p := rfl

theorem write_solver_prototxt_frame (s : SolverParameter) (mf : String) :
    (write_solver_prototxt s mf).2 = s := rfl

theorem crossvalWriteLoop_char (p : NetParameter) (s : SolverParameter)
    (train_data test_data train_models : Nat → String) (binmap_root : String) :
    ∀ (n : Nat) (w : List (NetParameter × NetParameter × SolverParameter)),
      (List.range n).foldl (fun st i =>
        let r1 := write_model_prototxt st.2.1 (train_data i) binmap_root "train"
        let r2 := write_model_prototxt r1.2 (test_data i) binmap_root "test"
        let r3 := write_solver_prototxt st.2.2 (train_models i)
        (st.1 ++ [(r1.1, r2.1, r3.1)], r2.2, r3.2)) (w, p, s) =
      (w ++ (List.range n).map (fun i =>
        ((write_model_prototxt p (train_data i) binmap_root "train").1,
         (write_model_prototxt p (test_data i) binmap_root "test").1,
         (write_solver_prototxt s (train_models i)).1)), p, s) := by
  intro n
  induction n with
  | zero => intro w; simp
  | succ n ih =>
    intro w
    rw [List.range_succ, List.foldl_append, ih w]
    simp only [List.foldl_cons, List.foldl_nil, List.map_append, List.map_cons, List.map_nil,
      write_model_prototxt_frame, write_solver_prototxt_frame]
    rw [List.append_assoc]

/-- C10: `write_model_prototxt` and `write_solver_prototxt` never modify
the prototype message passed to them: each copies the prototype into a
fresh message before editing fields or deleting layers, so the caller's
`model_prototype` and `solver_prototype` are unchanged after every call;
in particular `generate_crossval_files` reuses the same prototypes across
all `k+1` folds, and each fold's written messages are those computed from
the original prototypes. -/
theorem prototypes_unmodified (p : NetParameter) (s : SolverParameter)
    (data_file binmap_root mode model_file : String)
    (train_data test_data train_models : Nat → String) (k : Nat) :
    (write_model_prototxt p data_file binmap_root mode).2 = p ∧
    (write_solver_prototxt s model_file).2 = s ∧
    (crossvalWriteLoop p s train_data test_data train_models binmap_root k).2.1 = p ∧
    (crossvalWriteLoop p s train_data test_data train_models binmap_root k).2.2 = s ∧
    ∀ i : Nat,
      (crossvalWriteLoop p s train_data test_data train_models binmap_root k).1.get? i =
        if i < k + 1 then
          some ((write_model_prototxt p (train_data i) binmap_root "train").1,
                (write_model_prototxt p (test_data i) binmap_root "test").1,
                (write_solver_prototxt s (train_models i)).1)
        else none := by
  have hloop := crossvalWriteLoop_char p s train_data test_data train_models binmap_root
    (k+1) []
  refine ⟨rfl, rfl, ?_, ?_, ?_⟩
  · rw [crossvalWriteLoop, hloop]
  · rw [crossvalWriteLoop, hloop]
  · intro i
    rw [crossvalWriteLoop, hloop]
    simp only [List.nil_append]
    by_cases hi : i < k + 1
    · rw [if_pos hi]
      rw [List.get?_eq_getElem?, List.getElem?_map, List.getElem?_range hi, Option.map_some']
    · rw [if_neg hi]
      rw [List.get?_eq_getElem?, List.getElem?_map]
      rw [List.getElem?_eq_none (by simpa using hi)]
      rfl

end CNNScore
